import Mathlib

/-
Verification development for the invoice-RPA pipeline
(src/server/services/pythonRpaService.py).

Strings are modelled as `List Char`.  Python string operations used by the
service (`str.strip`, `str.replace`, `re.sub`, `str.split` with a cap,
`os.path.splitext`, `str.lower`, `str.endswith`) are translated below.
The SQLite tracking tables (primary key over the three identity columns,
INSERT OR IGNORE) are modelled as association lists keyed by the composite
identity.  Directories are modelled as lists of file names (or of
name-content pairs).  Selenium-environment nondeterminism (which buttons
exist, which waits time out, what the download watcher observes) is passed
in explicitly as environment records, so that each control path of the
source is a branch of a total function.
-/

namespace RpaSpec

/-- Whitespace characters stripped by Python `str.strip()`: the full
Unicode whitespace set of CPython (code points 0x09-0x0D, 0x1C-0x1F,
0x20, 0x85, 0xA0, 0x1680, 0x2000-0x200A, 0x2028, 0x2029, 0x202F, 0x205F,
0x3000). -/
def isPySpace (c : Char) : Bool :=
  (decide (9 ≤ c.toNat) && decide (c.toNat ≤ 13)) ||
  (decide (28 ≤ c.toNat) && decide (c.toNat ≤ 32)) ||
  decide (c.toNat = 133) || decide (c.toNat = 160) ||
  decide (c.toNat = 0x1680) ||
  (decide (0x2000 ≤ c.toNat) && decide (c.toNat ≤ 0x200a)) ||
  decide (c.toNat = 0x2028) || decide (c.toNat = 0x2029) ||
  decide (c.toNat = 0x202f) || decide (c.toNat = 0x205f) ||
  decide (c.toNat = 0x3000)

/-- Python `str.strip()`: remove leading and trailing whitespace. -/
def pyStrip (l : List Char) : List Char :=
  ((l.dropWhile isPySpace).reverse.dropWhile isPySpace).reverse

/-- Python `.replace(" ", "_")`: every space becomes an underscore. -/
def replSpaces (l : List Char) : List Char :=
  l.map (fun c => if c = ' ' then '_' else c)

/-- Python `.replace(d, "")` for a single-character pattern: delete every `d`. -/
def dropChar (d : Char) (l : List Char) : List Char :=
  l.filter (fun c => !(decide (c = d)))

/-- The character class of the regex used for `safe_emisor`
(`re.sub` over backslash, slash, star, question mark, colon, double quote,
angle brackets, pipe, newline, carriage return). -/
def forbiddenChar (c : Char) : Bool :=
  decide (c = '\\') || decide (c = '/') || decide (c = '*') || decide (c = '?') ||
  decide (c = ':') || decide (c = '\"') || decide (c = '<') || decide (c = '>') ||
  decide (c = '|') || decide (c = '\n') || decide (c = '\r')

/-- Python `re.sub(r'[\\/*?:"<>|\n\r]+', "_", s)`: each maximal run of
forbidden characters becomes one underscore.  The boolean argument records
whether the previous character belonged to a forbidden run. -/
def collapseForb : Bool → List Char → List Char
  | _, [] => []
  | prev, c :: cs =>
    if forbiddenChar c then
      if prev then collapseForb true cs else '_' :: collapseForb true cs
    else c :: collapseForb false cs

/-- Issuer normalization from `process_invoice_rows` lines 532-533:
`strip()`, then spaces to underscores, then dots removed, then the
forbidden-character runs collapsed to underscores. -/
def normEmisor (s : List Char) : List Char :=
  collapseForb false (dropChar '.' (replSpaces (pyStrip s)))

/-- Total-value normalization from `process_invoice_rows` line 534:
`strip()`, commas removed, dots removed, then `split(" ")[0]`
(everything up to the first space). -/
def normValor (s : List Char) : List Char :=
  (dropChar '.' (dropChar ',' (pyStrip s))).takeWhile (fun c => !(decide (c = ' ')))

/-- The composite invoice identity: the primary key of both tracking tables. -/
structure Identity where
  numero : List Char
  emisor : List Char
  valor : List Char
deriving DecidableEq

/-- Identity read from a table row's cells (`columns[1]`, `columns[2]`,
`columns[8]` in `process_invoice_rows`). -/
def rowIdentity (cells : List (List Char)) : Identity :=
  ⟨pyStrip (cells.getD 1 []), normEmisor (cells.getD 2 []), normValor (cells.getD 8 [])⟩

/-- Python `s.split(sep, maxsplit)` for a single-character separator. -/
def splitCap (sep : Char) : Nat → List Char → List (List Char)
  | 0, l => [l]
  | m + 1, l =>
    let pre := l.takeWhile (fun c => !(decide (c = sep)))
    match l.dropWhile (fun c => !(decide (c = sep))) with
    | [] => [l]
    | _ :: tl => pre :: splitCap sep m tl

/-- The root part of Python `os.path.splitext` for a plain file name:
split at the last dot, unless every character before it is a dot. -/
def splitExtRoot (l : List Char) : List Char :=
  let tail := l.reverse.takeWhile (fun c => !(decide (c = '.')))
  if tail.length = l.length then l
  else
    let root := l.take (l.length - tail.length - 1)
    if root.all (fun c => decide (c = '.')) then l else root

def zipExt : List Char := ['.', 'z', 'i', 'p']

def xmlExt : List Char := ['.', 'x', 'm', 'l']

/-- The canonical archive name built by `download_invoice` line 634:
the f-string joining `numero_documento` and `safe_emisor` with one
underscore, plus the `.zip` extension.  The `valor_total` field does not
appear in it. -/
def archiveName (id : Identity) : List Char :=
  id.numero ++ '_' :: id.emisor ++ zipExt

/-- The document name produced by `extract_xml_files` line 681:
`base_name` of the archive plus `.xml`. -/
def extractDocName (zipName : List Char) : List Char :=
  splitExtRoot zipName ++ xmlExt

/-- Python `f.lower().endswith(".zip")` from `wait_for_new_zip`. -/
def isZipName (f : List Char) : Bool :=
  zipExt.isSuffixOf (f.map Char.toLower)

def crExt : List Char := ['.', 'c', 'r', 'd', 'o', 'w', 'n', 'l', 'o', 'a', 'd']

/-- Python `f.endswith(".crdownload")` from `wait_for_new_zip` (case sensitive
in the source). -/
def isCrName (f : List Char) : Bool :=
  crExt.isSuffixOf f

/-- Python `f.lower().endswith(".xml")` from `extract_xml_files` and
`import_xml_to_database`. -/
def isXmlName (f : List Char) : Bool :=
  xmlExt.isSuffixOf (f.map Char.toLower)

/-- Python `max(new_files, key=os.path.getctime)`: the entry with the largest
creation time, first one winning ties.  A directory entry is a pair of a
file name and its creation time. -/
def pickLatest (x : List Char × Nat) (xs : List (List Char × Nat)) : List Char × Nat :=
  xs.foldl (fun a b => if a.2 < b.2 then b else a) x

/-- One iteration of the polling loop of `wait_for_new_zip` (lines 246-256)
over a single directory snapshot: list the `.crdownload` files, list the
`.zip` files not in the baseline, and return the newest new zip provided no
partial download is present. -/
def pollStep (before : List (List Char)) (snap : List (List Char × Nat)) :
    Option (List Char × Nat) :=
  let crs := snap.filter (fun e => isCrName e.1)
  let news := snap.filter (fun e => isZipName e.1 && !(decide (e.1 ∈ before)))
  match news, crs with
  | x :: xs, [] => some (pickLatest x xs)
  | _, _ => none

/-- `wait_for_new_zip`: the while loop polls the download directory once per
sleep interval until the deadline.  `snaps` is the sequence of directory
snapshots observed at the successive polls before the deadline; `none`
models the `TimeoutError` raised when the deadline passes with no poll
having succeeded. -/
def waitForNewZip (before : List (List Char)) :
    List (List (List Char × Nat)) → Option (List Char × Nat)
  | [] => none
  | s :: rest =>
    match pollStep before s with
    | some f => some f
    | none => waitForNewZip before rest

/-- A candidate name `base_k + ext` tried by the conflict loop of
`safe_rename`. -/
def candName (base ext : List Char) (k : Nat) : List Char :=
  base ++ '_' :: (Nat.toDigits 10 k ++ ext)

/-- The name `safe_rename` finally renames to: `dest` when free, otherwise
the first free `base_k + ext` with `k = 1, 2, ...`.  The source loop is
unbounded; since the `fs.length + 1` candidates are more numerous than the
directory entries, the first free one is always found within that bound,
which makes the bounded search below equivalent. -/
def renameTarget (fs : List (List Char)) (dest : List Char) : List Char :=
  if dest ∈ fs then
    let base := splitExtRoot dest
    let ext := dest.drop base.length
    match (List.range (fs.length + 1)).find?
        (fun j => !(decide (candName base ext (j + 1) ∈ fs))) with
    | some j => candName base ext (j + 1)
    | none => candName base ext (fs.length + 1)
  else dest

/-- `INSERT OR IGNORE` into the downloads table (`download_invoice`
lines 639-644): the primary key is the identity triple, so a row whose
identity is already present is left untouched. -/
def insertOrIgnoreDl (db : List (Identity × List Char)) (id : Identity)
    (fname : List Char) : List (Identity × List Char) :=
  if db.any (fun e => decide (e.1 = id)) then db else db ++ [(id, fname)]

/-- Environment nondeterminism for one `download_invoice` call: how many
buttons the row holds, whether the `descargar` button becomes clickable
within its timeout, what `wait_for_new_zip` produces (`none` for its
`TimeoutError`), and whether the dialog close button becomes clickable. -/
structure DlEnv where
  buttonsCount : Nat
  dlButtonClickable : Bool
  watcherResult : Option (List Char)
  closeClickable : Bool

/-- Outcome of one `download_invoice` call: whether a download trigger was
clicked, the final name of any renamed archive, whether a `DownloadRecord`
was inserted, the boolean the call returns, and the downloads table and
download directory afterwards. -/
structure DlResult where
  triggered : Bool
  renamed : Option (List Char)
  inserted : Bool
  success : Bool
  db : List (Identity × List Char)
  fs : List (List Char)

/-- `download_invoice` (lines 597-657).  All exceptions in the body are
caught by its own handler, which returns `False`; each failing wait is a
branch here.  Note the order of effects in the source: trigger clicks,
watcher, rename, insert-and-commit, and only then the dialog close whose
timeout also lands in the handler. -/
def downloadInvoice (env : DlEnv) (fs : List (List Char))
    (db : List (Identity × List Char)) (id : Identity) : DlResult :=
  if env.buttonsCount < 4 then ⟨false, none, false, false, db, fs⟩
  else if env.dlButtonClickable = false then ⟨true, none, false, false, db, fs⟩
  else
    match env.watcherResult with
    | none => ⟨true, none, false, false, db, fs⟩
    | some src =>
      let tgt := renameTarget fs (archiveName id)
      let fs1 := fs.filter (fun g => !(decide (g = src))) ++ [tgt]
      let db1 := insertOrIgnoreDl db id tgt
      if env.closeClickable = false then ⟨true, some tgt, true, false, db1, fs1⟩
      else ⟨true, some tgt, true, true, db1, fs1⟩

/-- Outcome of processing one table row inside the page loop of
`process_invoice_rows`: besides the `download_invoice` data, the deltas of
the four statistics counters (`total_invoices`, `successful_imports`,
`failed_imports`, `processed_invoices`). -/
structure RowOutcome where
  triggered : Bool
  renamed : Option (List Char)
  inserted : Bool
  db : List (Identity × List Char)
  fs : List (List Char)
  dTotal : Nat
  dSucc : Nat
  dFail : Nat
  dProc : Nat
deriving DecidableEq

/-- The per-row body of `process_invoice_rows` (lines 525-577).  A row with
fewer than 8 cells is skipped by the guard at line 528.  A row with exactly
8 cells passes that guard but raises `IndexError` at `columns[8]`
(line 534), which the per-row handler at line 574 turns into
`failed_imports += 1`.  Otherwise the identity is computed, the dedup
`SELECT` is consulted, and on a miss `download_invoice` runs and the
counters are updated from its boolean. -/
def processRow (env : DlEnv) (fs : List (List Char))
    (db : List (Identity × List Char)) (cells : List (List Char)) : RowOutcome :=
  if cells.length < 8 then ⟨false, none, false, db, fs, 0, 0, 0, 0⟩
  else if cells.length < 9 then ⟨false, none, false, db, fs, 0, 0, 1, 0⟩
  else
    if db.any (fun e => decide (e.1 = rowIdentity cells)) then
      ⟨false, none, false, db, fs, 0, 0, 0, 0⟩
    else
      let r := downloadInvoice env fs db (rowIdentity cells)
      if r.success then ⟨r.triggered, r.renamed, r.inserted, r.db, r.fs, 1, 1, 0, 1⟩
      else ⟨r.triggered, r.renamed, r.inserted, r.db, r.fs, 1, 0, 1, 1⟩

/-- Environment nondeterminism for one archive inside `extract_xml_files`:
`zipContents` is the listing the archive unpacks to (name-content pairs),
with `none` modelling `zipfile.ZipFile` raising on open; `moveFails`
models `shutil.move` raising. -/
structure ExtractEnv where
  zipContents : Option (List (List Char × List Char))
  moveFails : Bool

/-- The filesystem state `extract_xml_files` acts on: the archives in the
download directory, the documents in the xml directory (name-content
pairs), and the scratch directory `__temp_extract__` (`none` when absent,
otherwise its listing). -/
structure ExtractState where
  zips : List (List Char)
  xmls : List (List Char × List Char)
  temp : Option (List (List Char × List Char))
deriving DecidableEq

/-- The scratch-directory listing after `os.makedirs(..., exist_ok=True)`
and `zip_ref.extractall`: `exist_ok=True` keeps a pre-existing directory
and its contents, and extraction overwrites same-named entries, so the
listing is the retained old entries followed by the extracted ones. -/
def mkListing (pre : Option (List (List Char × List Char)))
    (files : List (List Char × List Char)) : List (List Char × List Char) :=
  (pre.getD []).filter (fun e => files.all (fun f2 => decide (f2.1 ≠ e.1))) ++ files

/-- The per-archive body of `extract_xml_files` (lines 672-704) for the
archive named `z`.  If opening the archive raises, the per-archive handler
leaves everything as it was.  Otherwise the scratch directory is created
(retaining prior contents), the archive is unpacked into it, and the first
`.xml` entry of the listing is moved to the xml directory under
`base_name + .xml` (overwriting a same-named document) before the loop
breaks; then `shutil.rmtree` removes the scratch directory and, because a
payload was found, the archive is deleted.  If the move raises, the
exception skips the `shutil.rmtree`, so the scratch directory and the
archive survive.  If no `.xml` entry exists, the scratch directory is
removed and the archive is kept. -/
def extractOne (env : ExtractEnv) (st : ExtractState) (z : List Char) : ExtractState :=
  match env.zipContents with
  | none => st
  | some files =>
    let listing := mkListing st.temp files
    match listing.find? (fun e => isXmlName e.1) with
    | none => ⟨st.zips, st.xmls, none⟩
    | some e =>
      if env.moveFails then ⟨st.zips, st.xmls, some listing⟩
      else
        ⟨st.zips.filter (fun g => !(decide (g = z))),
         st.xmls.filter (fun g => !(decide (g.1 = extractDocName z))) ++ [(extractDocName z, e.2)],
         none⟩

/-- The identity `import_xml_to_database` recovers from a document file
name (lines 725-731): the base name is split on underscore with the split
count capped at 2, and fewer than three parts means the file is skipped. -/
def xmlRecordKey (fname : List Char) : Option Identity :=
  let parts := splitCap '_' 2 (splitExtRoot fname)
  if parts.length < 3 then none
  else some ⟨parts.getD 0 [], parts.getD 1 [], parts.getD 2 []⟩

/-- `INSERT OR IGNORE` into the xml table (`import_xml_to_database`
lines 738-742): keyed by the identity triple, a present key is a no-op. -/
def insertOrIgnoreXml (db : List (Identity × List Char)) (id : Identity)
    (content : List Char) : List (Identity × List Char) :=
  if db.any (fun e => decide (e.1 = id)) then db else db ++ [(id, content)]

/-- The per-file body of `import_xml_to_database` (lines 722-752) for the
document `f` (a name-content pair), truncated after `k` effectful steps to
model a crash: `k = 0` stops before the insert, `k = 1` stops between the
insert-and-commit and the `os.remove`, and `k ≥ 2` runs to completion.
A file whose base name does not split into three parts is skipped with no
effects at all. -/
def importOneSteps (k : Nat) (db : List (Identity × List Char))
    (files : List (List Char × List Char)) (f : List Char × List Char) :
    List (Identity × List Char) × List (List Char × List Char) :=
  match xmlRecordKey f.1 with
  | none => (db, files)
  | some id =>
    match k with
    | 0 => (db, files)
    | 1 => (insertOrIgnoreXml db id f.2, files)
    | _ + 2 => (insertOrIgnoreXml db id f.2, files.filter (fun g => !(decide (g.1 = f.1))))

/-- The complete (crash-free) per-file body of `import_xml_to_database`. -/
def importOne (db : List (Identity × List Char))
    (files : List (List Char × List Char)) (f : List Char × List Char) :
    List (Identity × List Char) × List (List Char × List Char) :=
  importOneSteps 2 db files f

theorem dropWhile_eq_self_of {p : Char → Bool} {l : List Char}
    (h : ∀ c ∈ l, p c = false) : l.dropWhile p = l := by
  cases l with
  | nil => rfl
  | cons a tl => simp [List.dropWhile_cons, h a (List.mem_cons_self a tl)]

theorem dropWhile_eq_nil_of {p : Char → Bool} {l : List Char}
    (h : ∀ c ∈ l, p c = true) : l.dropWhile p = [] := by
  induction l with
  | nil => rfl
  | cons a tl ih =>
    simp only [List.dropWhile_cons, h a (List.mem_cons_self a tl), if_true]
    exact ih fun c hc => h c (List.mem_cons_of_mem a hc)

theorem dropWhile_append_of {p : Char → Bool} {a : List Char} (b : List Char)
    (h : ∀ c ∈ a, p c = true) : (a ++ b).dropWhile p = b.dropWhile p := by
  induction a with
  | nil => rfl
  | cons x tl ih =>
    simp only [List.cons_append, List.dropWhile_cons, h x (List.mem_cons_self x tl), if_true]
    exact ih fun c hc => h c (List.mem_cons_of_mem x hc)

theorem takeWhile_eq_self_of {p : Char → Bool} {l : List Char}
    (h : ∀ c ∈ l, p c = true) : l.takeWhile p = l := by
  induction l with
  | nil => rfl
  | cons a tl ih =>
    simp only [List.takeWhile_cons, h a (List.mem_cons_self a tl), if_true]
    exact congrArg (a :: ·) (ih fun c hc => h c (List.mem_cons_of_mem a hc))

theorem takeWhile_append_of {p : Char → Bool} {a : List Char} (b : List Char)
    (h : ∀ c ∈ a, p c = true) : (a ++ b).takeWhile p = a ++ b.takeWhile p := by
  induction a with
  | nil => rfl
  | cons x tl ih =>
    simp only [List.cons_append, List.takeWhile_cons, h x (List.mem_cons_self x tl), if_true]
    exact congrArg (x :: ·) (ih fun c hc => h c (List.mem_cons_of_mem x hc))

theorem mem_pyStrip {l : List Char} {c : Char} (h : c ∈ pyStrip l) : c ∈ l := by
  unfold pyStrip at h
  rw [List.mem_reverse] at h
  have h1 := (List.dropWhile_sublist _).mem h
  rw [List.mem_reverse] at h1
  exact (List.dropWhile_sublist _).mem h1

theorem pyStrip_eq_self_of {l : List Char}
    (h : ∀ c ∈ l, isPySpace c = false) : pyStrip l = l := by
  unfold pyStrip
  rw [dropWhile_eq_self_of h]
  rw [dropWhile_eq_self_of fun c hc => h c (List.mem_reverse.mp hc)]
  exact List.reverse_reverse l

theorem mem_replSpaces {l : List Char} {c : Char} (h : c ∈ replSpaces l) :
    c = '_' ∨ (c ∈ l ∧ ¬ (c = ' ')) := by
  unfold replSpaces at h
  rcases List.mem_map.mp h with ⟨a, ha, hac⟩
  by_cases hsp : a = ' '
  · left; rw [← hac, hsp]; rfl
  · right
    rw [if_neg hsp] at hac
    exact ⟨hac ▸ ha, hac ▸ hsp⟩

theorem replSpaces_eq_self_of {l : List Char}
    (h : ∀ c ∈ l, ¬ (c = ' ')) : replSpaces l = l := by
  unfold replSpaces
  induction l with
  | nil => rfl
  | cons a tl ih =>
    simp only [List.map_cons, if_neg (h a (List.mem_cons_self a tl))]
    exact congrArg (a :: ·) (ih fun c hc => h c (List.mem_cons_of_mem a hc))

theorem mem_dropChar {d : Char} {l : List Char} {c : Char} (h : c ∈ dropChar d l) :
    c ∈ l ∧ ¬ (c = d) := by
  unfold dropChar at h
  rcases List.mem_filter.mp h with ⟨h1, h2⟩
  exact ⟨h1, of_decide_eq_false (Bool.not_eq_true' .. ▸ h2)⟩

theorem dropChar_eq_self_of {d : Char} {l : List Char}
    (h : ∀ c ∈ l, ¬ (c = d)) : dropChar d l = l :=
  List.filter_eq_self.mpr fun c hc => by
    simp only [Bool.not_eq_true', decide_eq_false_iff_not]
    exact h c hc

theorem mem_collapseForb {l : List Char} {c : Char} :
    ∀ {b : Bool}, c ∈ collapseForb b l → c = '_' ∨ (c ∈ l ∧ forbiddenChar c = false) := by
  induction l with
  | nil => intro b h; simp [collapseForb] at h
  | cons a tl ih =>
    intro b h
    by_cases hf : forbiddenChar a
    · rw [show collapseForb b (a :: tl)
          = if b then collapseForb true tl else '_' :: collapseForb true tl by
            simp [collapseForb, hf]] at h
      cases b with
      | true =>
        rcases ih (by simpa using h) with h1 | ⟨h2, h3⟩
        · exact Or.inl h1
        · exact Or.inr ⟨List.mem_cons_of_mem a h2, h3⟩
      | false =>
        simp only [if_false, Bool.false_eq_true, List.mem_cons] at h
        rcases h with h1 | h1
        · exact Or.inl h1
        · rcases ih h1 with h2 | ⟨h3, h4⟩
          · exact Or.inl h2
          · exact Or.inr ⟨List.mem_cons_of_mem a h3, h4⟩
    · rw [show collapseForb b (a :: tl) = a :: collapseForb false tl by
          simp [collapseForb, hf]] at h
      rcases List.mem_cons.mp h with h1 | h1
      · exact Or.inr ⟨h1 ▸ List.mem_cons_self a tl, h1 ▸ (Bool.not_eq_true _).mp hf⟩
      · rcases ih h1 with h2 | ⟨h3, h4⟩
        · exact Or.inl h2
        · exact Or.inr ⟨List.mem_cons_of_mem a h3, h4⟩

theorem collapseForb_eq_self_of {l : List Char}
    (h : ∀ c ∈ l, forbiddenChar c = false) : ∀ b, collapseForb b l = l := by
  induction l with
  | nil => intro b; rfl
  | cons a tl ih =>
    intro b
    simp only [collapseForb, h a (List.mem_cons_self a tl), Bool.false_eq_true, if_false]
    exact congrArg (a :: ·) (ih (fun c hc => h c (List.mem_cons_of_mem a hc)) false)

theorem mem_takeWhile {p : Char → Bool} {l : List Char} {c : Char}
    (h : c ∈ l.takeWhile p) : c ∈ l ∧ p c = true :=
  ⟨(List.takeWhile_sublist _).mem h, List.mem_takeWhile_imp h⟩

/-- Character-level facts about the issuer normalization output: under
inputs whose only whitespace is the plain space, every character of
`normEmisor s` is non-whitespace, not a dot, not a space, and not in the
forbidden class. -/
theorem normEmisor_chars {s : List Char}
    (h : ∀ c ∈ s, isPySpace c = true → c = ' ') :
    ∀ c ∈ normEmisor s,
      isPySpace c = false ∧ ¬ (c = ' ') ∧ ¬ (c = '.') ∧ forbiddenChar c = false := by
  intro c hc
  unfold normEmisor at hc
  rcases mem_collapseForb hc with h1 | ⟨h2, h3⟩
  · subst h1
    refine ⟨by decide, by decide, by decide, by decide⟩
  · rcases mem_dropChar h2 with ⟨h4, hdot⟩
    rcases mem_replSpaces h4 with h5 | ⟨h6, hsp⟩
    · subst h5
      refine ⟨by decide, by decide, by decide, h3⟩
    · have hmem : c ∈ s := mem_pyStrip h6
      have hps : isPySpace c = false := by
        cases hb : isPySpace c with
        | false => rfl
        | true => exact absurd (h c hmem hb) hsp
      exact ⟨hps, hsp, hdot, h3⟩

/-- Character-level facts about the value normalization output. -/
theorem normValor_chars {s : List Char}
    (h : ∀ c ∈ s, isPySpace c = true → c = ' ') :
    ∀ c ∈ normValor s,
      isPySpace c = false ∧ ¬ (c = ' ') ∧ ¬ (c = '.') ∧ ¬ (c = ',') := by
  intro c hc
  unfold normValor at hc
  rcases mem_takeWhile hc with ⟨h1, hsp'⟩
  have hsp : ¬ (c = ' ') := of_decide_eq_false (Bool.not_eq_true' .. ▸ hsp')
  rcases mem_dropChar h1 with ⟨h2, hdot⟩
  rcases mem_dropChar h2 with ⟨h3, hcomma⟩
  have hmem : c ∈ s := mem_pyStrip h3
  have hps : isPySpace c = false := by
    cases hb : isPySpace c with
    | false => rfl
    | true => exact absurd (h c hmem hb) hsp
  exact ⟨hps, hsp, hdot, hcomma⟩

/-- Claim C9 is refuted on the code as stated: normalizing the
already-normalized issuer string obtained from `". <tab> a"` changes it
again (deleting the dot exposes a leading tab, which only the second
`strip()` removes), and likewise for the value normalization on
`", <tab> 5"`. -/
theorem C9_idem_counterexample :
    ¬ (normEmisor (normEmisor ['.', '\t', 'a']) = normEmisor ['.', '\t', 'a']) ∧
      ¬ (normValor (normValor [',', '\t', '5']) = normValor [',', '\t', '5']) := by
  decide

/-- Claim C9 (amended): identity normalization is deterministic, and it is
idempotent for every input string whose whitespace characters are all the
plain space: applying the issuer normalization or the value normalization
of `process_invoice_rows` to its own output yields that output again.
(For general inputs idempotence fails, because deleting a dot or comma can
expose a non-space whitespace character at an end of the string, which
only the second `strip()` removes.) -/
theorem C9_norm_idempotent (s : List Char)
    (h : ∀ c ∈ s, isPySpace c = true → c = ' ') :
    normEmisor (normEmisor s) = normEmisor s ∧
      normValor (normValor s) = normValor s := by
  constructor
  · have hch := normEmisor_chars h
    conv_lhs => rw [normEmisor]
    rw [pyStrip_eq_self_of fun c hc => (hch c hc).1]
    rw [replSpaces_eq_self_of fun c hc => (hch c hc).2.1]
    rw [dropChar_eq_self_of fun c hc => (hch c hc).2.2.1]
    exact collapseForb_eq_self_of (fun c hc => (hch c hc).2.2.2) false
  · have hch := normValor_chars h
    conv_lhs => rw [normValor]
    rw [pyStrip_eq_self_of fun c hc => (hch c hc).1]
    rw [dropChar_eq_self_of fun c hc => (hch c hc).2.2.2]
    rw [dropChar_eq_self_of fun c hc => (hch c hc).2.2.1]
    exact takeWhile_eq_self_of fun c hc => by
      simp only [Bool.not_eq_true', decide_eq_false_iff_not]
      exact (hch c hc).2.1

/-- Witness for C9_norm_idempotent at a concrete identity-like input. -/
theorem C9_norm_idempotent_witness :
    normEmisor (normEmisor "Acme Corp. S,A.S".data) = normEmisor "Acme Corp. S,A.S".data ∧
      normValor (normValor "1,234.00 COP".data) = normValor "1,234.00 COP".data :=
  ⟨(C9_norm_idempotent "Acme Corp. S,A.S".data (by decide)).1,
   (C9_norm_idempotent "1,234.00 COP".data (by decide)).2⟩

/-- A concrete 9-cell table row used for witnesses: cell 1 holds the
document number, cell 2 the issuer, cell 8 the total. -/
def exCells : List (List Char) :=
  [[], "INV-1".data, "Acme".data, [], [], [], [], [], "100".data]

/-- The identity `process_invoice_rows` computes from `exCells`. -/
def exId : Identity := ⟨"INV-1".data, "Acme".data, "100".data⟩

/-- A benign download environment: four buttons, every wait succeeds, the
watcher sees `tmp.zip`. -/
def exEnv : DlEnv := ⟨4, true, some "tmp.zip".data, true⟩

/-- Claim C1: a row whose identity already has a record in the
`downloaded_invoices` table is skipped by `process_invoice_rows`: no
download trigger is clicked, no file is renamed, no record is inserted,
and the table is unchanged. -/
theorem C1_dup_row_skipped (env : DlEnv) (fs : List (List Char))
    (db : List (Identity × List Char)) (cells : List (List Char))
    (hlen : 9 ≤ cells.length)
    (hdup : db.any (fun e => decide (e.1 = rowIdentity cells)) = true) :
    (processRow env fs db cells).triggered = false ∧
      (processRow env fs db cells).renamed = none ∧
      (processRow env fs db cells).inserted = false ∧
      (processRow env fs db cells).db = db := by
  unfold processRow
  rw [if_neg (by omega), if_neg (by omega), if_pos hdup]
  exact ⟨rfl, rfl, rfl, rfl⟩

/-- Witness for C1_dup_row_skipped: the concrete row `exCells` against a
table already holding its identity. -/
theorem C1_dup_row_skipped_witness :
    (processRow exEnv [] [(exId, "f.zip".data)] exCells).triggered = false ∧
      (processRow exEnv [] [(exId, "f.zip".data)] exCells).renamed = none ∧
      (processRow exEnv [] [(exId, "f.zip".data)] exCells).inserted = false ∧
      (processRow exEnv [] [(exId, "f.zip".data)] exCells).db = [(exId, "f.zip".data)] :=
  C1_dup_row_skipped exEnv [] [(exId, "f.zip".data)] exCells (by decide) (by decide)

/-- Claim C5: the filename round trip at the identity
`(INV-001, Acme_Corp, 12345)`: the canonical archive name, the derived
document name, and the capped underscore split of the base name. -/
theorem C5_filename_round_trip :
    archiveName ⟨"INV-001".data, "Acme_Corp".data, "12345".data⟩
        = "INV-001_Acme_Corp.zip".data ∧
      extractDocName (archiveName ⟨"INV-001".data, "Acme_Corp".data, "12345".data⟩)
        = "INV-001_Acme_Corp.xml".data ∧
      splitCap '_' 2
          (splitExtRoot (archiveName ⟨"INV-001".data, "Acme_Corp".data, "12345".data⟩))
        = ["INV-001".data, "Acme".data, "Corp".data] := by
  decide

/-- Claim C7 names a code bug, evaluated here: the guard of
`process_invoice_rows` only skips rows with fewer than 8 cells, yet the
identity needs cell index 8; a row with exactly 8 cells raises
`IndexError`, which the per-row handler counts as a failed import instead
of the silent skip the claim requires (a 7-cell row is indeed skipped
silently with no counter change). -/
theorem C7_eight_cell_row_counted_failed :
    (processRow exEnv [] [] (exCells.take 8)).dFail = 1 ∧
      (processRow exEnv [] [] (exCells.take 8)).triggered = false ∧
      (processRow exEnv [] [] (exCells.take 8)).renamed = none ∧
      (processRow exEnv [] [] (exCells.take 7))
        = ⟨false, none, false, [], [], 0, 0, 0, 0⟩ := by
  decide

theorem splitExtRoot_append_ext (x r : List Char)
    (hr : ∀ c ∈ r, ¬ (c = '.')) (hx : ∃ c ∈ x, ¬ (c = '.')) :
    splitExtRoot (x ++ '.' :: r) = x := by
  have hrev : (x ++ '.' :: r).reverse = r.reverse ++ '.' :: x.reverse := by
    simp [List.reverse_append]
  have hpr : ∀ c ∈ r.reverse, (!(decide (c = '.'))) = true := fun c hc => by
    simp [hr c (List.mem_reverse.mp hc)]
  have htail : (x ++ '.' :: r).reverse.takeWhile (fun c => !(decide (c = '.')))
      = r.reverse := by
    rw [hrev, takeWhile_append_of _ hpr]
    simp [List.takeWhile_cons]
  unfold splitExtRoot
  rw [htail]
  have hlen : (x ++ '.' :: r).length = x.length + r.length + 1 := by
    simp [List.length_append, List.length_cons]; omega
  rw [if_neg (by rw [List.length_reverse, hlen]; omega)]
  have hidx : (x ++ '.' :: r).length - r.reverse.length - 1 = x.length := by
    rw [List.length_reverse, hlen]; omega
  rw [hidx, List.take_left x ('.' :: r)]
  rcases hx with ⟨c, hc, hcdot⟩
  rw [if_neg]
  intro hall
  exact hcdot (of_decide_eq_true (List.all_eq_true.mp hall c hc))

theorem splitCap2_underscore_free (n e : List Char)
    (hn : ∀ c ∈ n, ¬ (c = '_')) (he : ∀ c ∈ e, ¬ (c = '_')) :
    splitCap '_' 2 (n ++ '_' :: e) = [n, e] := by
  have hpn : ∀ c ∈ n, (!(decide (c = '_'))) = true := fun c hc => by simp [hn c hc]
  have hpe : ∀ c ∈ e, (!(decide (c = '_'))) = true := fun c hc => by simp [he c hc]
  have h1 : (n ++ '_' :: e).takeWhile (fun c => !(decide (c = '_'))) = n := by
    rw [takeWhile_append_of _ hpn]
    simp [List.takeWhile_cons]
  have h2 : (n ++ '_' :: e).dropWhile (fun c => !(decide (c = '_'))) = '_' :: e := by
    rw [dropWhile_append_of _ hpn]
    simp [List.dropWhile_cons]
  have h4 : e.dropWhile (fun c => !(decide (c = '_'))) = [] := dropWhile_eq_nil_of hpe
  unfold splitCap
  rw [h2]
  simp only [h1]
  unfold splitCap
  rw [h4]

/-- Claim C4 is refuted on the code: for the identity
`(INV-001, Acme_Corp, 12345)` the archive name produced by
`download_invoice` does not let the downstream split recover the identity;
splitting on the first two underscores yields `(INV-001, Acme, Corp)`, not
the identity's three fields (the total value is never in the name). -/
theorem C4_round_trip_counterexample :
    ¬ (splitCap '_' 2
          (splitExtRoot (archiveName ⟨"INV-001".data, "Acme_Corp".data, "12345".data⟩))
        = ["INV-001".data, "Acme_Corp".data, "12345".data]) := by
  decide

/-- Claim C4 (amended): every archive placed in the download area by row
processing has a filename built from only the first two identity fields,
`document_number + underscore + issuer + .zip`; the total value is not
encoded (identities differing only in total value produce the same name),
and splitting the base filename on the first two underscores does not in
general recover the identity: when neither field contains an underscore
the split yields just two parts, so `import_xml_to_database` cannot
recover any identity from the derived document name and skips it. -/
theorem C4_two_field_filename (n e v v2 : List Char)
    (hn : ∀ c ∈ n, ¬ (c = '_')) (he : ∀ c ∈ e, ¬ (c = '_')) :
    archiveName ⟨n, e, v⟩ = archiveName ⟨n, e, v2⟩ ∧
      splitCap '_' 2 (splitExtRoot (archiveName ⟨n, e, v⟩)) = [n, e] ∧
      xmlRecordKey (extractDocName (archiveName ⟨n, e, v⟩)) = none := by
  have hshape : archiveName ⟨n, e, v⟩ = (n ++ '_' :: e) ++ '.' :: ['z', 'i', 'p'] := by
    simp [archiveName, zipExt]
  have hxd : ∃ c ∈ n ++ '_' :: e, ¬ (c = '.') :=
    ⟨'_', by simp, by decide⟩
  have hroot : splitExtRoot (archiveName ⟨n, e, v⟩) = n ++ '_' :: e := by
    rw [hshape]
    exact splitExtRoot_append_ext _ _ (by decide) hxd
  refine ⟨rfl, ?_, ?_⟩
  · rw [hroot]
    exact splitCap2_underscore_free n e hn he
  · have hdoc : extractDocName (archiveName ⟨n, e, v⟩)
        = (n ++ '_' :: e) ++ '.' :: ['x', 'm', 'l'] := by
      unfold extractDocName
      rw [hroot]
      simp [xmlExt]
    unfold xmlRecordKey
    rw [hdoc, splitExtRoot_append_ext _ _ (by decide) hxd,
      splitCap2_underscore_free n e hn he]
    rfl

/-- Witness for C4_two_field_filename at underscore-free fields. -/
theorem C4_two_field_filename_witness :
    archiveName ⟨"INV-001".data, "AcmeCorp".data, "12345".data⟩
        = archiveName ⟨"INV-001".data, "AcmeCorp".data, "99".data⟩ ∧
      splitCap '_' 2
          (splitExtRoot (archiveName ⟨"INV-001".data, "AcmeCorp".data, "12345".data⟩))
        = ["INV-001".data, "AcmeCorp".data] ∧
      xmlRecordKey (extractDocName (archiveName ⟨"INV-001".data, "AcmeCorp".data, "12345".data⟩))
        = none :=
  C4_two_field_filename "INV-001".data "AcmeCorp".data "12345".data "99".data
    (by decide) (by decide)

/-- The benign environment except that the dialog close button never
becomes clickable. -/
def exEnvNoClose : DlEnv := ⟨4, true, some "tmp.zip".data, false⟩

/-- Claim C6 is refuted on the code: with the download, rename and record
insertion all completed but the dialog close button never clickable, the
timeout lands in the catch-all handler of `download_invoice`, which
returns False, so `process_invoice_rows` counts the row as a failed
row even though the record was inserted and the archive renamed. -/
theorem C6_close_fail_counterexample :
    (processRow exEnvNoClose ["tmp.zip".data] [] exCells).inserted = true ∧
      (processRow exEnvNoClose ["tmp.zip".data] [] exCells).renamed
        = some "INV-1_Acme.zip".data ∧
      (processRow exEnvNoClose ["tmp.zip".data] [] exCells).dSucc = 0 ∧
      (processRow exEnvNoClose ["tmp.zip".data] [] exCells).dFail = 1 := by
  decide

/-- Claim C6 (amended): when the download, rename, and record insert all
complete but dismissing the resulting dialog fails (the close button never
becomes clickable within its timeout), the completed work is kept — the
`DownloadRecord` stays inserted and the archive stays renamed — but the
row's outcome does change: `download_invoice` returns False and the row is
counted as a failed import, not a success. -/
theorem C6_close_fail_keeps_download (env : DlEnv) (fs : List (List Char))
    (db : List (Identity × List Char)) (cells : List (List Char)) (src : List Char)
    (hlen : 9 ≤ cells.length)
    (hdup : db.any (fun e => decide (e.1 = rowIdentity cells)) = false)
    (hb : 4 ≤ env.buttonsCount)
    (hclick : env.dlButtonClickable = true)
    (hw : env.watcherResult = some src)
    (hclose : env.closeClickable = false) :
    (processRow env fs db cells).inserted = true ∧
      (processRow env fs db cells).renamed
        = some (renameTarget fs (archiveName (rowIdentity cells))) ∧
      (processRow env fs db cells).db
        = insertOrIgnoreDl db (rowIdentity cells)
            (renameTarget fs (archiveName (rowIdentity cells))) ∧
      (processRow env fs db cells).dSucc = 0 ∧
      (processRow env fs db cells).dFail = 1 := by
  have h8 : ¬ (cells.length < 8) := by omega
  have h9 : ¬ (cells.length < 9) := by omega
  have hb4 : ¬ (env.buttonsCount < 4) := by omega
  simp only [processRow, downloadInvoice, if_neg h8, if_neg h9, if_neg hb4, hdup, hclick,
    hclose, hw, Bool.false_eq_true, if_false, Bool.true_eq_false, reduceCtorEq]
  exact ⟨rfl, rfl, rfl, rfl, rfl⟩

/-- Witness for C6_close_fail_keeps_download at the concrete row. -/
theorem C6_close_fail_keeps_download_witness :
    (processRow exEnvNoClose ["a.zip".data] [] exCells).inserted = true ∧
      (processRow exEnvNoClose ["a.zip".data] [] exCells).renamed
        = some (renameTarget ["a.zip".data] (archiveName (rowIdentity exCells))) ∧
      (processRow exEnvNoClose ["a.zip".data] [] exCells).db
        = insertOrIgnoreDl [] (rowIdentity exCells)
            (renameTarget ["a.zip".data] (archiveName (rowIdentity exCells))) ∧
      (processRow exEnvNoClose ["a.zip".data] [] exCells).dSucc = 0 ∧
      (processRow exEnvNoClose ["a.zip".data] [] exCells).dFail = 1 :=
  C6_close_fail_keeps_download exEnvNoClose ["a.zip".data] [] exCells "tmp.zip".data
    (by decide) (by decide) (by decide) rfl rfl rfl

theorem pickLatest_mem (x : List Char × Nat) (xs : List (List Char × Nat)) :
    pickLatest x xs ∈ x :: xs := by
  induction xs generalizing x with
  | nil => exact List.mem_cons_self x []
  | cons b bs ih =>
    have hstep : pickLatest x (b :: bs) = pickLatest (if x.2 < b.2 then b else x) bs := rfl
    rw [hstep]
    rcases List.mem_cons.mp (ih (if x.2 < b.2 then b else x)) with h | h
    · rw [h]
      by_cases hc : x.2 < b.2
      · rw [if_pos hc]
        exact List.mem_cons_of_mem x (List.mem_cons_self b bs)
      · rw [if_neg hc]
        exact List.mem_cons_self x (b :: bs)
    · exact List.mem_cons_of_mem x (List.mem_cons_of_mem b h)

theorem pollStep_some {before : List (List Char)} {snap : List (List Char × Nat)}
    {f : List Char × Nat} (h : pollStep before snap = some f) :
    f ∈ snap ∧ isZipName f.1 = true ∧ ¬ (f.1 ∈ before) ∧
      snap.filter (fun e => isCrName e.1) = [] := by
  simp only [pollStep] at h
  cases hn : snap.filter (fun e => isZipName e.1 && !(decide (e.1 ∈ before))) with
  | nil =>
    rw [hn] at h
    cases snap.filter (fun e => isCrName e.1) <;> simp at h
  | cons x xs =>
    rw [hn] at h
    cases hc : snap.filter (fun e => isCrName e.1) with
    | cons y ys =>
      rw [hc] at h
      simp at h
    | nil =>
      rw [hc] at h
      have hf : pickLatest x xs = f := by
        simpa using h
      have hmem : f ∈ snap.filter (fun e => isZipName e.1 && !(decide (e.1 ∈ before))) := by
        rw [hn]
        exact hf ▸ pickLatest_mem x xs
      rcases List.mem_filter.mp hmem with ⟨hsnap, hpred⟩
      have hz : isZipName f.1 = true ∧ ¬ (f.1 ∈ before) := by simpa using hpred
      exact ⟨hsnap, hz.1, hz.2, rfl⟩

theorem waitForNewZip_some {before : List (List Char)}
    {snaps : List (List (List Char × Nat))} {f : List Char × Nat}
    (h : waitForNewZip before snaps = some f) :
    ¬ (f.1 ∈ before) ∧
      ∃ s ∈ snaps, f ∈ s ∧ s.filter (fun e => isCrName e.1) = [] := by
  induction snaps with
  | nil => simp [waitForNewZip] at h
  | cons s rest ih =>
    unfold waitForNewZip at h
    cases hp : pollStep before s with
    | some g =>
      rw [hp] at h
      have hg : g = f := by simpa using h
      rcases pollStep_some (hg ▸ hp) with ⟨h1, _, h3, h4⟩
      exact ⟨h3, s, List.mem_cons_self s rest, h1, h4⟩
    | none =>
      rw [hp] at h
      rcases ih h with ⟨h1, s', hs', hf, hcr⟩
      exact ⟨h1, s', List.mem_cons_of_mem s hs', hf, hcr⟩

theorem waitForNewZip_timeout {before : List (List Char)}
    {snaps : List (List (List Char × Nat))}
    (h : ∀ s ∈ snaps, ∀ e ∈ s, isZipName e.1 = true → e.1 ∈ before) :
    waitForNewZip before snaps = none := by
  induction snaps with
  | nil => rfl
  | cons s rest ih =>
    have hnil : s.filter (fun e => isZipName e.1 && !(decide (e.1 ∈ before))) = [] := by
      refine List.filter_eq_nil_iff.mpr fun e he hand => ?_
      have hz : isZipName e.1 = true ∧ ¬ (e.1 ∈ before) := by simpa using hand
      exact hz.2 (h s (List.mem_cons_self s rest) e he hz.1)
    have hps : pollStep before s = none := by
      simp only [pollStep, hnil]
    unfold waitForNewZip
    rw [hps]
    exact ih fun s' hs' => h s' (List.mem_cons_of_mem s hs')

/-- Claim C3: `wait_for_new_zip` never returns a path from the baseline
set, only returns a file observed in a polled snapshot holding no
`.crdownload` marker, and returns the timeout condition (modelled as
`none`) when no new zip ever appears across the polls before the
deadline. -/
theorem C3_watcher_safe (before : List (List Char))
    (snaps : List (List (List Char × Nat))) (f : List Char × Nat) :
    (waitForNewZip before snaps = some f →
        ¬ (f.1 ∈ before) ∧
          ∃ s ∈ snaps, f ∈ s ∧ s.filter (fun e => isCrName e.1) = []) ∧
      ((∀ s ∈ snaps, ∀ e ∈ s, isZipName e.1 = true → e.1 ∈ before) →
        waitForNewZip before snaps = none) :=
  ⟨fun h => waitForNewZip_some h, fun h => waitForNewZip_timeout h⟩

/-- Witness for C3_watcher_safe: a run that returns the one genuinely new
zip, and a run where only baseline zips ever appear and the watcher times
out. -/
theorem C3_watcher_safe_witness :
    (¬ (("a.zip".data : List Char) ∈ (["old.zip".data] : List (List Char))) ∧
        ∃ s ∈ [[(("old.zip".data : List Char), 1), (("a.zip".data : List Char), 3)]],
          (("a.zip".data : List Char), 3) ∈ s ∧
            s.filter (fun e => isCrName e.1) = []) ∧
      waitForNewZip ["old.zip".data] [[(("old.zip".data : List Char), 2)]] = none :=
  ⟨(C3_watcher_safe ["old.zip".data]
      [[(("old.zip".data : List Char), 1), (("a.zip".data : List Char), 3)]]
      (("a.zip".data : List Char), 3)).1 (by decide),
   (C3_watcher_safe ["old.zip".data] [[(("old.zip".data : List Char), 2)]]
      (("x".data : List Char), 0)).2 (by decide)⟩

theorem insertOrIgnoreXml_key (db : List (Identity × List Char)) (id : Identity)
    (c : List Char) :
    (insertOrIgnoreXml db id c).any (fun e => decide (e.1 = id)) = true := by
  unfold insertOrIgnoreXml
  by_cases h : db.any (fun e => decide (e.1 = id)) = true
  · rw [if_pos h]
    exact h
  · rw [if_neg h, List.any_append]
    simp

theorem insertOrIgnoreXml_idem {db : List (Identity × List Char)} {id : Identity}
    (c : List Char) (h : db.any (fun e => decide (e.1 = id)) = true) :
    insertOrIgnoreXml db id c = db := by
  unfold insertOrIgnoreXml
  rw [if_pos h]

/-- Claim C2: `import_xml_to_database` deletes a document file only after
its record insert has completed — at every crash point, if the file is
gone from the xml directory then its identity is in the xml table — and a
re-run from the crash point between insert and delete leaves the table
unchanged (the insert-or-ignore is a no-op) while still deleting the
now-redundant file. -/
theorem C2_ingest_delete_after_insert (db : List (Identity × List Char))
    (files : List (List Char × List Char)) (f : List Char × List Char)
    (hmem : f ∈ files) :
    (∀ k, ¬ (f.1 ∈ (importOneSteps k db files f).2.map Prod.fst) →
        ∃ id, xmlRecordKey f.1 = some id ∧
          (importOneSteps k db files f).1.any (fun e => decide (e.1 = id)) = true) ∧
      (∀ id, xmlRecordKey f.1 = some id →
        importOne (importOneSteps 1 db files f).1 (importOneSteps 1 db files f).2 f
          = ((importOneSteps 1 db files f).1,
             files.filter (fun g => !(decide (g.1 = f.1))))) := by
  constructor
  · intro k hk
    cases hkey : xmlRecordKey f.1 with
    | none =>
      exfalso
      apply hk
      simp only [importOneSteps, hkey]
      exact List.mem_map_of_mem Prod.fst hmem
    | some id =>
      refine ⟨id, rfl, ?_⟩
      match k with
      | 0 =>
        exfalso
        apply hk
        simp only [importOneSteps, hkey]
        exact List.mem_map_of_mem Prod.fst hmem
      | 1 =>
        exfalso
        apply hk
        simp only [importOneSteps, hkey]
        exact List.mem_map_of_mem Prod.fst hmem
      | k + 2 =>
        simp only [importOneSteps, hkey]
        exact insertOrIgnoreXml_key db id f.2
  · intro id hkey
    simp only [importOne, importOneSteps, hkey]
    rw [insertOrIgnoreXml_idem f.2 (insertOrIgnoreXml_key db id f.2)]

/-- Witness for C2_ingest_delete_after_insert at the single valid document
file `A_B_C.xml`: the completed run has deleted it and holds its record,
and the re-run from the crash point after the insert deletes it without
touching the table. -/
theorem C2_ingest_delete_after_insert_witness :
    (∃ id, xmlRecordKey ("A_B_C.xml".data, "x".data).1 = some id ∧
        (importOneSteps 2 [] [("A_B_C.xml".data, "x".data)]
            ("A_B_C.xml".data, "x".data)).1.any (fun e => decide (e.1 = id)) = true) ∧
      importOne
          (importOneSteps 1 [] [("A_B_C.xml".data, "x".data)] ("A_B_C.xml".data, "x".data)).1
          (importOneSteps 1 [] [("A_B_C.xml".data, "x".data)] ("A_B_C.xml".data, "x".data)).2
          ("A_B_C.xml".data, "x".data)
        = ((importOneSteps 1 [] [("A_B_C.xml".data, "x".data)] ("A_B_C.xml".data, "x".data)).1,
           [("A_B_C.xml".data, "x".data)].filter
             (fun g => !(decide (g.1 = ("A_B_C.xml".data, "x".data).1)))) :=
  ⟨(C2_ingest_delete_after_insert [] [("A_B_C.xml".data, "x".data)]
      ("A_B_C.xml".data, "x".data) (by decide)).1 2 (by decide),
   (C2_ingest_delete_after_insert [] [("A_B_C.xml".data, "x".data)]
      ("A_B_C.xml".data, "x".data) (by decide)).2
     ⟨"A".data, "B".data, "C".data⟩ (by decide)⟩

/-- Claim C8 is refuted on the code: when `shutil.move` raises for an
archive holding a payload, the exception jumps past `shutil.rmtree`, so
the scratch subdirectory is not removed — it survives the archive's
processing with its contents. -/
theorem C8_scratch_counterexample :
    ¬ ((extractOne ⟨some [("d.xml".data, "c".data)], true⟩
          ⟨["z.zip".data], [], none⟩ "z.zip".data).temp = none) := by
  decide

/-- Claim C8 (amended): the scratch subdirectory of `extract_xml_files` is
created only if absent — a pre-existing directory keeps its contents,
which end up in the unpack listing — and it is removed afterward only when
unpacking and moving complete without raising: when the payload move
raises, the scratch directory is left in place with the listing, and when
opening the archive raises, the directory is left exactly as it was. -/
theorem C8_scratch_lifecycle (env : ExtractEnv) (st : ExtractState) (z : List Char)
    (files : List (List Char × List Char)) (n1 c1 : List Char)
    (hzip : env.zipContents = some files) :
    (env.moveFails = true →
        (mkListing st.temp files).find? (fun e => isXmlName e.1) = some (n1, c1) →
        (extractOne env st z).temp = some (mkListing st.temp files)) ∧
      (env.moveFails = false → (extractOne env st z).temp = none) ∧
      (∀ a ∈ st.temp.getD [],
        files.all (fun f2 => decide (f2.1 ≠ a.1)) = true → a ∈ mkListing st.temp files) := by
  refine ⟨?_, ?_, ?_⟩
  · intro hmv hfind
    simp only [extractOne, hzip, hfind, hmv, if_true]
  · intro hmv
    simp only [extractOne, hzip]
    cases hfind : (mkListing st.temp files).find? (fun e => isXmlName e.1) with
    | none => rfl
    | some e => simp [hmv]
  · intro a ha hall
    unfold mkListing
    exact List.mem_append_left _ (List.mem_filter.mpr ⟨ha, hall⟩)

/-- Witness for C8_scratch_lifecycle: a failing move keeps the scratch
directory, a clean run removes it, and a leftover entry of a pre-existing
scratch directory survives into the listing. -/
theorem C8_scratch_lifecycle_witness :
    (extractOne ⟨some [("d.xml".data, "c".data)], true⟩
          ⟨["z.zip".data], [], some [("old.txt".data, "o".data)]⟩ "z.zip".data).temp
        = some (mkListing (some [("old.txt".data, "o".data)]) [("d.xml".data, "c".data)]) ∧
      (extractOne ⟨some [("d.xml".data, "c".data)], false⟩
          ⟨["z.zip".data], [], none⟩ "z.zip".data).temp = none ∧
      ("old.txt".data, "o".data)
        ∈ mkListing (some [("old.txt".data, "o".data)]) [("d.xml".data, "c".data)] :=
  ⟨(C8_scratch_lifecycle ⟨some [("d.xml".data, "c".data)], true⟩
      ⟨["z.zip".data], [], some [("old.txt".data, "o".data)]⟩ "z.zip".data
      [("d.xml".data, "c".data)] "d.xml".data "c".data rfl).1 rfl (by decide),
   (C8_scratch_lifecycle ⟨some [("d.xml".data, "c".data)], false⟩
      ⟨["z.zip".data], [], none⟩ "z.zip".data
      [("d.xml".data, "c".data)] "d.xml".data "c".data rfl).2.1 rfl,
   (C8_scratch_lifecycle ⟨some [("d.xml".data, "c".data)], true⟩
      ⟨["z.zip".data], [], some [("old.txt".data, "o".data)]⟩ "z.zip".data
      [("d.xml".data, "c".data)] "d.xml".data "c".data rfl).2.2
     ("old.txt".data, "o".data) (by decide) (by decide)⟩

/-- Claim C10: for an archive whose listing holds more than one `.xml`
payload (fresh scratch directory, no move failure), `extract_xml_files`
moves exactly the first payload of the listing to the document area under
the archive's base name, deletes the remaining payloads together with the
scratch directory, and deletes the archive, so the extra payloads survive
nowhere in the resulting state. -/
theorem C10_multi_payload (env : ExtractEnv) (st : ExtractState) (z : List Char)
    (files : List (List Char × List Char)) (n1 c1 : List Char)
    (hzip : env.zipContents = some files)
    (hmv : env.moveFails = false)
    (htemp : st.temp = none)
    (hfind : files.find? (fun e => isXmlName e.1) = some (n1, c1))
    (hmulti : 2 ≤ (files.filter (fun e => isXmlName e.1)).length) :
    extractOne env st z =
      ⟨st.zips.filter (fun g => !(decide (g = z))),
       st.xmls.filter (fun g => !(decide (g.1 = extractDocName z)))
         ++ [(extractDocName z, c1)],
       none⟩ := by
  have hlist : mkListing st.temp files = files := by
    rw [htemp]
    unfold mkListing
    simp
  simp only [extractOne, hzip, hlist, hfind, hmv, Bool.false_eq_true, if_false]

/-- Witness for C10_multi_payload: an archive with two payloads; only the
first one's content reaches the document area. -/
theorem C10_multi_payload_witness :
    extractOne ⟨some [("a.xml".data, "c1".data), ("b.xml".data, "c2".data)], false⟩
        ⟨["A_B.zip".data], [], none⟩ "A_B.zip".data
      = ⟨(["A_B.zip".data] : List (List Char)).filter
           (fun g => !(decide (g = "A_B.zip".data))),
         ([] : List (List Char × List Char)).filter
             (fun g => !(decide (g.1 = extractDocName "A_B.zip".data)))
           ++ [(extractDocName "A_B.zip".data, "c1".data)],
         none⟩ :=
  C10_multi_payload ⟨some [("a.xml".data, "c1".data), ("b.xml".data, "c2".data)], false⟩
    ⟨["A_B.zip".data], [], none⟩ "A_B.zip".data
    [("a.xml".data, "c1".data), ("b.xml".data, "c2".data)] "a.xml".data "c1".data
    rfl rfl rfl (by decide) (by decide)

end RpaSpec

